import Mathlib

/-!
# Verification of the `snooze` duration parser and time formatters

Shallow embedding of `src/lib.rs` and the signal-routing part of
`src/main.rs` of the `snooze` countdown utility.

Modelling conventions:

* Rust `std::time::Duration` (a `u64` second count plus a sub-second
  nanosecond count below `10^9`) is represented by its total number of
  nanoseconds, a `Nat`.  A value representable by the Rust type satisfies
  `nanos ≤ durMaxNanos` where `durMaxNanos = (2^64 - 1) * 10^9 + (10^9 - 1)`;
  theorems that depend on the `u64` bound carry that hypothesis explicitly.
  `Duration::as_secs` is division by `10^9`, `Duration::subsec_nanos` is the
  remainder, `Duration::checked_add` succeeds exactly when the second count
  of the sum still fits in a `u64`, i.e. when the total stays `≤ durMaxNanos`.

* Rust `f64` values produced by `str::parse::<f64>()` are idealised as exact
  values: the numeric literals appearing in the claims denote values on
  which `f64` arithmetic is exact.  A parsed `f64` is an `F64Val`: either a
  finite value — a `FloatVal`, an integer numerator over a positive natural
  denominator (a power of ten produced by the decimal grammar), whose
  rational value is `FloatVal.val` — or one of the special values `+inf`,
  `-inf` and `NaN`.  The whole grammar of `f64::from_str` is modelled:
  an optional sign followed by either a decimal number (integer/fraction
  digits, optional exponent) or a case-insensitive `inf`, `infinity` or
  `nan`.

* The float-to-integer conversion `expr as u64` saturates in Rust: negative
  values (and NaN) give `0`, values above `u64::MAX` give `u64::MAX`.

* Strings are `List Char`; `String`-typed wrappers mirror the Rust `&str`
  signatures.  `str::trim` strips the Unicode `White_Space` characters from
  both ends; the full `White_Space` set is enumerated below.
-/

namespace Snooze

/-- Rust `u64::MAX`. -/
def u64Max : ℕ := 2 ^ 64 - 1

/-- Rust `i64::MAX`. -/
def i64Max : ℕ := 2 ^ 63 - 1

/-- Total nanoseconds of the largest `std::time::Duration`:
`u64::MAX` seconds plus `10^9 - 1` nanoseconds. -/
def durMaxNanos : ℕ := u64Max * 10 ^ 9 + (10 ^ 9 - 1)

/-- The code points of the Unicode `White_Space` property, the set stripped
by Rust's `str::trim`. -/
def whiteSpaceCodes : List ℕ :=
  [0x09, 0x0A, 0x0B, 0x0C, 0x0D, 0x20, 0x85, 0xA0, 0x1680,
   0x2000, 0x2001, 0x2002, 0x2003, 0x2004, 0x2005, 0x2006, 0x2007,
   0x2008, 0x2009, 0x200A, 0x2028, 0x2029, 0x202F, 0x205F, 0x3000]

/-- Rust `char::is_whitespace` (Unicode `White_Space`). -/
def isRustWhitespace (c : Char) : Bool :=
  whiteSpaceCodes.contains c.toNat

/-- Rust `str::trim`: drop whitespace from both ends. -/
def rustTrim (cs : List Char) : List Char :=
  ((cs.dropWhile isRustWhitespace).reverse.dropWhile isRustWhitespace).reverse

/-- An exact finite `f64` value: an integer numerator over a positive
natural denominator.  The denominators produced by the parser are powers of
ten. -/
structure FloatVal where
  num : ℤ
  den : ℕ
deriving DecidableEq, Repr

/-- The rational value denoted by a `FloatVal`. -/
def FloatVal.val (x : FloatVal) : ℚ := (x.num : ℚ) / (x.den : ℚ)

/-- The value of a non-empty all-digit string, `none` otherwise. -/
def digitsVal (cs : List Char) : Option ℕ :=
  if cs ≠ [] ∧ cs.all Char.isDigit then
    some (cs.foldl (fun a c => 10 * a + (c.toNat - 48)) 0)
  else none

/-- Strip one optional leading sign, returning the sign as `1` or `-1`. -/
def splitSign (cs : List Char) : ℤ × List Char :=
  match cs with
  | '+' :: rest => (1, rest)
  | '-' :: rest => (-1, rest)
  | _ => (1, cs)

/-- Mantissa of the `f64::from_str` grammar:
`Digits '.'? Digits? | '.' Digits`, valued as an exact fraction over a
power-of-ten denominator. -/
def parseMantissa (cs : List Char) : Option FloatVal :=
  let ip := cs.takeWhile (fun c => c ≠ '.')
  match cs.dropWhile (fun c => c ≠ '.') with
  | [] => (digitsVal ip).map (fun n => ⟨(n : ℤ), 1⟩)
  | _ :: fp =>
    if ip = [] then
      (digitsVal fp).map (fun f => ⟨(f : ℤ), 10 ^ fp.length⟩)
    else
      (digitsVal ip).bind (fun i =>
        if fp = [] then some ⟨(i : ℤ), 1⟩
        else (digitsVal fp).map (fun f =>
          ⟨(i : ℤ) * 10 ^ fp.length + (f : ℤ), 10 ^ fp.length⟩))

/-- Exponent of the `f64::from_str` grammar: optional sign then digits. -/
def parseExponent (cs : List Char) : Option ℤ :=
  let sr := splitSign cs
  (digitsVal sr.2).map (fun n => sr.1 * n)

/-- The decimal-number alternative of the `f64::from_str` grammar
(optional sign, mantissa, optional exponent), idealised to the exact value
it denotes.  `none` when the string is not a decimal number. -/
def parseDecimalNum (cs : List Char) : Option FloatVal :=
  let sr := splitSign cs
  let mant := sr.2.takeWhile (fun c => c ≠ 'e' ∧ c ≠ 'E')
  match sr.2.dropWhile (fun c => c ≠ 'e' ∧ c ≠ 'E') with
  | [] => (parseMantissa mant).map (fun m => ⟨sr.1 * m.num, m.den⟩)
  | _ :: ex =>
    (parseMantissa mant).bind (fun m =>
      (parseExponent ex).map (fun e =>
        if 0 ≤ e then ⟨sr.1 * m.num * 10 ^ e.toNat, m.den⟩
        else ⟨sr.1 * m.num, m.den * 10 ^ (-e).toNat⟩))

/-- A parsed `f64` value: an exact finite value, positive or negative
infinity, or NaN. -/
inductive F64Val where
  | finite (x : FloatVal)
  | posInf
  | negInf
  | nan
deriving DecidableEq, Repr

/-- Rust `str::parse::<f64>()`: an optional sign followed by either a
case-insensitive `inf`, `infinity` or `nan`, or a decimal number.  `none`
models `Err(ParseFloatError)`. -/
def parseF64 (cs : List Char) : Option F64Val :=
  let sr := splitSign cs
  let low := sr.2.map Char.toLower
  if low = ['i', 'n', 'f'] ∨ low = ['i', 'n', 'f', 'i', 'n', 'i', 't', 'y'] then
    some (if sr.1 = 1 then .posInf else .negInf)
  else if low = ['n', 'a', 'n'] then some .nan
  else (parseDecimalNum cs).map .finite

/-- Rust `enum SnoozeUnit`. -/
inductive SnoozeUnit where
  | Seconds
  | Minutes
  | Hours
  | Days
deriving DecidableEq

/-- Rust `const MULTIPLIER_SECONDS: f64 = 1.0` (an exact integer). -/
def MULTIPLIER_SECONDS : ℕ := 1

/-- Rust `const MULTIPLIER_MINUTES: f64 = 60.0`. -/
def MULTIPLIER_MINUTES : ℕ := 60

/-- Rust `const MULTIPLIER_HOURS: f64 = 60.0 * 60.0`. -/
def MULTIPLIER_HOURS : ℕ := 60 * 60

/-- Rust `const MULTIPLIER_DAYS: f64 = 24.0 * 60.0 * 60.0`. -/
def MULTIPLIER_DAYS : ℕ := 24 * 60 * 60

/-- Rust `impl FromStr for SnoozeUnit`: only the exact one-letter strings
`"s"`, `"m"`, `"h"`, `"d"` are units. -/
def snoozeUnitFromStr (cs : List Char) : Option SnoozeUnit :=
  match cs with
  | [c] =>
    if c = 's' then some .Seconds
    else if c = 'm' then some .Minutes
    else if c = 'h' then some .Hours
    else if c = 'd' then some .Days
    else none
  | _ => none

/-- The multiplier `match` inside `parse_pause_arg`. -/
def multiplierOf : SnoozeUnit → ℕ
  | .Seconds => MULTIPLIER_SECONDS
  | .Minutes => MULTIPLIER_MINUTES
  | .Hours => MULTIPLIER_HOURS
  | .Days => MULTIPLIER_DAYS

/-- Rust `char::is_alphabetic` restricted to the ASCII letters.  A non-ASCII
alphabetic final character makes both the Rust code and this model reject
the term (the unit parse, respectively the numeric parse, fails), so the
restriction does not change any observable result of `split_unit`. -/
def isRustAlphabetic (c : Char) : Bool := c.isAlpha

/-- Rust `fn split_unit(input: &str) -> Option<(f64, SnoozeUnit)>`: take the last
character; if it is alphabetic it is the unit string and the rest is the
number, otherwise the whole input is the number and the unit defaults to
`"s"`. -/
def split_unit (input : List Char) : Option (F64Val × SnoozeUnit) :=
  (input.getLast?).bind (fun c =>
    let p := if isRustAlphabetic c then (input.dropLast, [c]) else (input, ['s'])
    (parseF64 p.1).bind (fun num =>
      (snoozeUnitFromStr p.2).map (fun unit => (num, unit))))

/-- Rust `expr.trunc() as u64` on an exact value: truncation toward zero
(`Int.tdiv` truncates toward zero) followed by Rust's saturating
float-to-integer cast (negative values become `0`, values above `u64::MAX`
become `u64::MAX`). -/
def truncAsU64 (x : FloatVal) : ℕ :=
  if x.num.tdiv x.den < 0 then 0 else min (x.num.tdiv x.den).toNat u64Max

/-- The value `(number * multiplier * 1e9).trunc() as u64` for each class
of parsed `f64` value.  The multiplier and `1e9` are positive finite
floats, so a finite number gives the exact scaled product (truncated and
saturated by the cast); `+inf` stays `+inf` and the cast saturates to
`u64::MAX`; `-inf` stays `-inf` and the cast clamps to `0`; NaN propagates
through the arithmetic and the cast maps it to `0`. -/
def castF64Nanos (v : F64Val) (u : SnoozeUnit) : ℕ :=
  match v with
  | .finite x => truncAsU64 ⟨x.num * multiplierOf u * 1000000000, x.den⟩
  | .posInf => u64Max
  | .negInf => 0
  | .nan => 0

/-- Rust `fn parse_pause_arg(input: &str) -> Option<Duration>` on `List Char`.
The result is the total-nanosecond value of the returned `Duration`
(`Duration::from_nanos`).  `seconds` is `number * multiplier`; the returned
count is `(seconds * 1e9).trunc() as u64`. -/
def parsePauseArgChars (input : List Char) : Option ℕ :=
  let input := rustTrim input
  if input = [] then some 0
  else
    (split_unit input).map (fun p => castF64Nanos p.1 p.2)

/-- Rust `parse_pause_arg` on `String`, mirroring the Rust `&str` signature. -/
def parse_pause_arg (input : String) : Option ℕ :=
  parsePauseArgChars input.toList

/-- Rust `Duration::checked_add` in the total-nanosecond model: the addition
succeeds exactly when the second count of the sum fits in a `u64`. -/
def checkedAdd (a b : ℕ) : Option ℕ :=
  if a + b ≤ durMaxNanos then some (a + b) else none

/-- Rust `fn sum_pause_args(args: &[&str]) -> Option<Duration>`: try-fold the
parsed terms with `checked_add` starting from zero, then reject a zero
total. -/
def sum_pause_args (args : List String) : Option ℕ :=
  (args.foldlM (fun acc arg =>
      (parse_pause_arg arg).bind (fun d => checkedAdd acc d)) 0).bind
    (fun v => if v = 0 then none else some v)

/-- Each term of the list parsed independently, in input order: `none` when
any single term is invalid, otherwise the list of parsed nanosecond
counts.  Specification-side companion of `sum_pause_args`. -/
def parseAll : List String → Option (List ℕ)
  | [] => some []
  | a :: l => (parse_pause_arg a).bind (fun d => (parseAll l).map (fun tl => d :: tl))

/-! ## Remaining-time formatting (`RemainingTime`, `format_remaining_time`) -/

/-- Left-pad a string with `fill` up to width `w`, as Rust's width format
specifiers do (`{:3}` pads with spaces, `{:02}` with zeros; a value wider
than the field is printed in full). -/
def padLeft (fill : Char) (w : ℕ) (s : String) : String :=
  String.mk (List.replicate (w - s.length) fill) ++ s

/-- Rust `struct RemainingTime`. -/
structure RemainingTime where
  seconds : ℕ
  minutes : ℕ
  hours : ℕ
deriving DecidableEq, Repr

/-- Rust `impl Display for RemainingTime`: the three context-sensitive columns.
`hours` renders `"{:3}:"` when positive, else four spaces; `minutes`
renders `"{:02}:"` when hours are shown, else `"{}:"` / `"{:2}:"` / three
spaces by the `10..` / `1..10` / `0` match arms; `seconds` renders
`"{:02}"` when hours or minutes are shown, else `"{:2}"`. -/
def RemainingTime.display (rt : RemainingTime) : String :=
  let hours := if 1 ≤ rt.hours then padLeft ' ' 3 (toString rt.hours) ++ ":" else "    "
  let minutes :=
    if rt.hours > 0 then padLeft '0' 2 (toString rt.minutes) ++ ":"
    else if 10 ≤ rt.minutes then toString rt.minutes ++ ":"
    else if 1 ≤ rt.minutes then padLeft ' ' 2 (toString rt.minutes) ++ ":"
    else "   "
  let seconds :=
    if rt.hours > 0 ∨ rt.minutes > 0 then padLeft '0' 2 (toString rt.seconds)
    else padLeft ' ' 2 (toString rt.seconds)
  hours ++ minutes ++ seconds

/-- The hour/minute/second decomposition computed by
`fn format_remaining_time`: `total_seconds` is `as_secs()`, incremented
with `u64::saturating_add` (modelled by `min (_+1) u64Max`, exact for every
representable duration) when `subsec_nanos() > 500_000_000`, then split by
`div_euclid`/`rem_euclid`. -/
def remainingTimeOf (input : ℕ) : RemainingTime :=
  let total0 := input / 10 ^ 9
  let total := if input % 10 ^ 9 > 500000000 then min (total0 + 1) u64Max else total0
  let hours := total / (60 * 60)
  let remaining_minutes := total % (60 * 60)
  let minutes := remaining_minutes / 60
  let seconds := remaining_minutes % 60
  ⟨seconds, minutes, hours⟩

/-- Rust `fn format_remaining_time(input: Duration) -> String`. -/
def format_remaining_time (input : ℕ) : String :=
  (remainingTimeOf input).display

/-- Modelled from the spec: the decomposition exactly as the claim words
it — a carry of `+1` second applied (without saturation) whenever the
sub-second remainder exceeds `0.5 s`, then floor-division/remainder.
Used only to compare the claimed rounding behaviour with the code's. -/
def specRemainingTime (input : ℕ) : RemainingTime :=
  let total := input / 10 ^ 9 + (if input % 10 ^ 9 > 500000000 then 1 else 0)
  ⟨total % 60, total % (60 * 60) / 60, total / (60 * 60)⟩

/-- Lexicographic order on the rendered (hours, minutes, seconds)
decomposition, most significant field first. -/
def RemainingTime.lexLe (a b : RemainingTime) : Prop :=
  a.hours < b.hours ∨
    (a.hours = b.hours ∧
      (a.minutes < b.minutes ∨ (a.minutes = b.minutes ∧ a.seconds ≤ b.seconds)))

/-! ## Wall-clock end time (`calc_wall_clock_end_time`,
`format_wall_clock_end_time`)

The `time` crate's `OffsetDateTime` is modelled by the whole number of
nanoseconds `t : ℤ` between the (wall-clock, offset-adjusted) instant it
denotes and the epoch `1970-01-01 00:00:00`.  Its calendar `date()` is the
proleptic-Gregorian civil date of day number `t.fdiv nsPerDay`; the crate's
representable range is year `-9999` through year `9999`. -/

/-- Nanoseconds per civil day. -/
def nsPerDay : ℤ := 86400 * 10 ^ 9

/-- Day number (days since 1970-01-01) of a civil date
(proleptic Gregorian calendar). -/
def daysFromCivil (y m d : ℤ) : ℤ :=
  let y := if m ≤ 2 then y - 1 else y
  let era := y.fdiv 400
  let yoe := y - era * 400
  let mp := (m + 9) % 12
  let doy := (153 * mp + 2).tdiv 5 + d - 1
  let doe := yoe * 365 + yoe.tdiv 4 - yoe.tdiv 100 + doy
  era * 146097 + doe - 719468

/-- Civil date (year, month, day) of a day number, inverse of
`daysFromCivil`. -/
def civilFromDays (z : ℤ) : ℤ × ℤ × ℤ :=
  let z := z + 719468
  let era := z.fdiv 146097
  let doe := z - era * 146097
  let yoe := (doe - doe.tdiv 1460 + doe.tdiv 36524 - doe.tdiv 146096).tdiv 365
  let y := yoe + era * 400
  let doy := doe - (365 * yoe + yoe.tdiv 4 - yoe.tdiv 100)
  let mp := (5 * doy + 2).tdiv 153
  let d := doy - (153 * mp + 2).tdiv 5 + 1
  let m := mp + (if mp < 10 then 3 else -9)
  (y + (if m ≤ 2 then 1 else 0), m, d)

/-- The smallest `OffsetDateTime` instant: `-9999-01-01 00:00:00`. -/
def minDateTimeNanos : ℤ := daysFromCivil (-9999) 1 1 * nsPerDay

/-- The largest `OffsetDateTime` instant:
`9999-12-31 23:59:59.999999999`. -/
def maxDateTimeNanos : ℤ := (daysFromCivil 9999 12 31 + 1) * nsPerDay - 1

/-- Rust `OffsetDateTime::date()` in the model: the civil date of the instant. -/
def civilDate (t : ℤ) : ℤ × ℤ × ℤ :=
  civilFromDays (t.fdiv nsPerDay)

/-- Rust `fn calc_wall_clock_end_time`: the second count of the duration must
fit in an `i64` (`i64::try_from(...).ok()?`); the sub-second part always
fits in an `i32`.  `saturating_add` clamps the sum to the representable
datetime range. -/
def calc_wall_clock_end_time (beginning : ℤ) (duration : ℕ) : Option ℤ :=
  if duration / 10 ^ 9 ≤ i64Max then
    some (max minDateTimeNanos (min maxDateTimeNanos (beginning + (duration : ℤ))))
  else none

/-- Second of the day of an instant (a value in `[0, 86400)`). -/
def secondOfDay (t : ℤ) : ℕ :=
  ((t.fmod nsPerDay).tdiv (10 ^ 9)).toNat

/-- The `"[hour]:[minute]:[second]"` format description: zero-padded
24-hour time. -/
def timeFmt (t : ℤ) : String :=
  padLeft '0' 2 (toString (secondOfDay t / 3600)) ++ ":" ++
    padLeft '0' 2 (toString (secondOfDay t % 3600 / 60)) ++ ":" ++
    padLeft '0' 2 (toString (secondOfDay t % 60))

/-- The `"[year]-[month]-[day] "` format description (zero-padded fields,
trailing space included as in the source). -/
def dateFmt (t : ℤ) : String :=
  let c := civilDate t
  (if c.1 < 0 then "-" else "") ++ padLeft '0' 4 (toString c.1.natAbs) ++ "-" ++
    padLeft '0' 2 (toString c.2.1.toNat) ++ "-" ++
    padLeft '0' 2 (toString c.2.2.toNat) ++ " "

/-- Rust `fn format_wall_clock_end_time`: prepend the date exactly when the end
falls on a different calendar date than the beginning.  Formatting cannot
fail in the model, so the result is always `some`. -/
def format_wall_clock_end_time (beginning end_ : ℤ) : Option String :=
  let date := if civilDate beginning = civilDate end_ then "" else dateFmt end_
  some (date ++ timeFmt end_)

/-! ## Signal router (`install_signal_handlers` in `src/main.rs`) -/

/-- Rust `enum SnoozeMessage`.  The spec calls `PrintTime` "RequestRefresh". -/
inductive SnoozeMessage where
  | PrintTime
  | Suspend
  | Terminate (code : ℤ)
deriving DecidableEq, Repr

/-- The two receiving channels of `install_signal_handlers`. -/
inductive ChannelId where
  | uiChannel
  | loopChannel
deriving DecidableEq, Repr

/-- Rust `signal::SIGUSR1` (Linux numbering, as `signal_hook::consts`). -/
def SIGUSR1 : ℤ := 10

/-- Rust `signal::SIGTSTP`. -/
def SIGTSTP : ℤ := 20

/-- Rust `signal::SIGTERM`. -/
def SIGTERM : ℤ := 15

/-- Rust `signal::SIGQUIT`. -/
def SIGQUIT : ℤ := 3

/-- Rust `signal::SIGINT`. -/
def SIGINT : ℤ := 2

/-- The body of the signal-router loop in `install_signal_handlers`: the
list of `(channel, message)` sends performed for one received signal, in
program order. -/
def handleSignal (signalid : ℤ) : List (ChannelId × SnoozeMessage) :=
  if signalid = SIGUSR1 then [(.uiChannel, .PrintTime)]
  else if signalid = SIGTSTP then [(.uiChannel, .Suspend), (.loopChannel, .Suspend)]
  else if signalid = SIGTERM ∨ signalid = SIGQUIT ∨ signalid = SIGINT then
    [(.uiChannel, .Terminate signalid), (.loopChannel, .Terminate signalid)]
  else []

/-! ## Helper lemmas -/

/-- A term of only whitespace characters trims to the empty string. -/
lemma rustTrim_of_all_ws (cs : List Char) (h : ∀ c ∈ cs, isRustWhitespace c) :
    rustTrim cs = [] := by
  unfold rustTrim
  rw [List.dropWhile_eq_nil_iff.mpr h]
  rfl

/-- A blank (all-whitespace, possibly empty) term parses to the zero
duration. -/
lemma parse_blank (s : String) (h : ∀ c ∈ s.toList, isRustWhitespace c) :
    parse_pause_arg s = some 0 := by
  unfold parse_pause_arg parsePauseArgChars
  rw [rustTrim_of_all_ws _ h]
  rfl

/-- Rust `split_unit` fails on the empty string. -/
lemma split_unit_nil : split_unit [] = none := rfl

/-- Once the trimmed term splits into a number and a unit, the parse result
is the truncated, saturated cast of `number * multiplier * 1e9`. -/
lemma parsePauseArg_of_split (cs : List Char) (v : F64Val) (u : SnoozeUnit)
    (hsplit : split_unit (rustTrim cs) = some (v, u)) :
    parsePauseArgChars cs = some (castF64Nanos v u) := by
  have hne : rustTrim cs ≠ [] := by
    intro h
    rw [h, split_unit_nil] at hsplit
    exact Option.noConfusion hsplit
  simp only [parsePauseArgChars, if_neg hne, hsplit]
  rfl

/-- The cast of a finite value unfolds to the truncated scaled fraction. -/
lemma castF64Nanos_finite (x : FloatVal) (u : SnoozeUnit) :
    castF64Nanos (.finite x) u =
      truncAsU64 ⟨x.num * multiplierOf u * 1000000000, x.den⟩ := rfl

/-- A nonpositive numerator truncates-and-casts to `0`. -/
lemma truncAsU64_of_nonpos (x : FloatVal) (h : x.num ≤ 0) : truncAsU64 x = 0 := by
  have ht : x.num.tdiv x.den ≤ 0 := by
    have h2 : 0 ≤ (-x.num).tdiv x.den :=
      Int.tdiv_nonneg (by omega) (Int.natCast_nonneg _)
    rw [Int.neg_tdiv] at h2
    omega
  unfold truncAsU64
  rcases lt_or_ge (x.num.tdiv x.den) 0 with hlt | hge
  · rw [if_pos hlt]
  · rw [if_neg (by omega), le_antisymm ht hge]
    rfl

/-- A negative value has a negative numerator. -/
lemma num_neg_of_val_neg (x : FloatVal) (h : x.val < 0) : x.num < 0 := by
  by_contra h2
  push_neg at h2
  have : (0 : ℚ) ≤ x.val :=
    div_nonneg (by exact_mod_cast h2) (Nat.cast_nonneg _)
  linarith

/-- A positive value has a positive numerator. -/
lemma num_pos_of_val_pos (x : FloatVal) (h : 0 < x.val) : 0 < x.num := by
  by_contra h2
  push_neg at h2
  have : x.val ≤ 0 :=
    div_nonpos_iff.mpr (Or.inr ⟨by exact_mod_cast h2, Nat.cast_nonneg _⟩)
  linarith

/-- The scaled value of a `FloatVal` as a single integer fraction. -/
lemma val_mul_natCast (x : FloatVal) (k : ℕ) :
    x.val * (k : ℚ) = ((x.num * k : ℤ) : ℚ) / (x.den : ℚ) := by
  unfold FloatVal.val
  push_cast
  ring

/-! ## C9: signal router translation -/

/-- C9: for every received signal, `SIGUSR1` produces one `PrintTime`
(RequestRefresh) event to the UI channel only; `SIGTSTP` one `Suspend`
event to each channel; each of `SIGTERM`, `SIGQUIT`, `SIGINT` one
`Terminate` event carrying the originating signal code to each channel;
and no other signal produces any event. -/
theorem signal_router_translation :
    handleSignal SIGUSR1 = [(.uiChannel, .PrintTime)] ∧
    handleSignal SIGTSTP = [(.uiChannel, .Suspend), (.loopChannel, .Suspend)] ∧
    handleSignal SIGTERM =
      [(.uiChannel, .Terminate SIGTERM), (.loopChannel, .Terminate SIGTERM)] ∧
    handleSignal SIGQUIT =
      [(.uiChannel, .Terminate SIGQUIT), (.loopChannel, .Terminate SIGQUIT)] ∧
    handleSignal SIGINT =
      [(.uiChannel, .Terminate SIGINT), (.loopChannel, .Terminate SIGINT)] ∧
    ∀ s : ℤ, s ≠ SIGUSR1 → s ≠ SIGTSTP → s ≠ SIGTERM → s ≠ SIGQUIT → s ≠ SIGINT →
      handleSignal s = [] := by
  refine ⟨by decide, by decide, by decide, by decide, by decide, ?_⟩
  intro s h1 h2 h3 h4 h5
  unfold handleSignal
  rw [if_neg h1, if_neg h2, if_neg (by simp [h3, h4, h5])]

/-- Witness for C9 at the concrete non-routed signal `9` (`SIGKILL`). -/
theorem signal_router_translation_witness : handleSignal 9 = [] :=
  signal_router_translation.2.2.2.2.2 9 (by decide) (by decide) (by decide)
    (by decide) (by decide)

/-! ## C4: blank terms -/

/-- C4: every all-whitespace term (the empty string included) parses to the
zero duration, a valid result; yet every non-empty list of only blank terms
sums to zero, so `sum_pause_args` rejects it. -/
theorem blank_terms_spec :
    (∀ s : String, (∀ c ∈ s.toList, isRustWhitespace c) →
      parse_pause_arg s = some 0) ∧
    (∀ args : List String, args ≠ [] →
      (∀ a ∈ args, ∀ c ∈ a.toList, isRustWhitespace c) →
      sum_pause_args args = none) := by
  constructor
  · exact parse_blank
  · intro args _ hall
    have hfold : ∀ l : List String, (∀ a ∈ l, ∀ c ∈ a.toList, isRustWhitespace c) →
        List.foldlM (fun acc arg =>
          (parse_pause_arg arg).bind (fun d => checkedAdd acc d)) 0 l = some 0 := by
      intro l
      induction l with
      | nil => intro _; rfl
      | cons b l ih =>
        intro hb
        rw [List.foldlM_cons, parse_blank b (hb b (List.mem_cons_self b l))]
        have : checkedAdd 0 0 = some 0 := by decide
        simp only [Option.bind_some, this, Option.bind_eq_bind, Option.some_bind]
        exact ih (fun a ha => hb a (List.mem_cons_of_mem b ha))
    unfold sum_pause_args
    rw [hfold args hall]
    rfl

/-- Witness for C4: the one-element list of a single space. -/
theorem blank_terms_spec_witness :
    parse_pause_arg " " = some 0 ∧ sum_pause_args [" "] = none :=
  ⟨blank_terms_spec.1 " " (by decide),
   blank_terms_spec.2 [" "] (by decide) (by decide)⟩

/-! ## C3: negative numeric values -/

/-- C3 counterexample: the claim says a negative term is rejected
(`parse_pause_arg` returns `None`), but the saturating `as u64` cast turns
the negative nanosecond value into `0`, so the parse succeeds with the zero
duration. -/
theorem parse_negative_counterexample :
    parse_pause_arg "-5" = some 0 ∧ parse_pause_arg "-5s" = some 0 := by
  constructor
  · decide
  · decide

/-- C3 amended: a term with a negative numeric value is not rejected; the
`as u64` cast saturates at zero, so the term parses to the zero duration. -/
theorem parse_negative_amended :
    ∀ (cs : List Char) (x : FloatVal) (u : SnoozeUnit),
      split_unit (rustTrim cs) = some (.finite x, u) → x.val < 0 →
      parsePauseArgChars cs = some 0 := by
  intro cs x u hsplit hneg
  have hnum : x.num < 0 := num_neg_of_val_neg x hneg
  have hle : x.num * multiplierOf u * 1000000000 ≤ 0 := by
    have h2 : (0 : ℤ) ≤ (multiplierOf u : ℤ) * 1000000000 := by positivity
    nlinarith
  rw [parsePauseArg_of_split cs (.finite x) u hsplit, castF64Nanos_finite,
    truncAsU64_of_nonpos ⟨x.num * multiplierOf u * 1000000000, x.den⟩ hle]

/-- Witness for C3's amended theorem at the concrete term `"-5"`. -/
theorem parse_negative_amended_witness :
    parsePauseArgChars ("-5".toList) = some 0 :=
  parse_negative_amended ("-5".toList) ⟨-5, 1⟩ .Seconds (by decide)
    (by norm_num [FloatVal.val])

/-! ## C10: magnitude saturation -/

/-- C10: once `split_unit` accepts a term, `parse_pause_arg` always
succeeds (no magnitude makes it fail); a value beyond the unsigned 64-bit
nanosecond range saturates the cast, yielding `u64::MAX` nanoseconds, as
the concrete term `"1e12d"` shows. -/
theorem parse_magnitude_saturates :
    (∀ (cs : List Char) (v : F64Val) (u : SnoozeUnit),
      split_unit (rustTrim cs) = some (v, u) →
      ∃ d, parsePauseArgChars cs = some d) ∧
    (∀ (cs : List Char) (x : FloatVal) (u : SnoozeUnit),
      split_unit (rustTrim cs) = some (.finite x, u) →
      (u64Max : ℚ) < x.val * (multiplierOf u : ℚ) * 10 ^ 9 →
      parsePauseArgChars cs = some u64Max) ∧
    parse_pause_arg "1e12d" = some u64Max := by
  refine ⟨fun cs v u hsplit => ⟨_, parsePauseArg_of_split cs v u hsplit⟩, ?_, by decide⟩
  intro cs x u hsplit hbig
  rw [parsePauseArg_of_split cs (.finite x) u hsplit, castF64Nanos_finite]
  set N : ℤ := x.num * multiplierOf u * 1000000000 with hN
  have hden : 0 < x.den := by
    rcases Nat.eq_zero_or_pos x.den with h0 | h
    · exfalso
      have hv0 : x.val = 0 := by
        unfold FloatVal.val
        rw [h0]
        simp
      rw [hv0] at hbig
      norm_num [u64Max] at hbig
    · exact h
  have hdq : (0 : ℚ) < (x.den : ℚ) := by exact_mod_cast hden
  have hval : (u64Max : ℚ) < ((N : ℤ) : ℚ) / (x.den : ℚ) := by
    have heq : x.val * (multiplierOf u : ℚ) * 10 ^ 9 = ((N : ℤ) : ℚ) / (x.den : ℚ) := by
      rw [hN]
      unfold FloatVal.val
      push_cast
      ring
    rw [← heq]
    exact hbig
  have hcast : (u64Max : ℤ) * (x.den : ℤ) < N := by
    rw [lt_div_iff₀ hdq] at hval
    exact_mod_cast hval
  have humpos : (0 : ℤ) ≤ ((u64Max : ℕ) : ℤ) := Int.natCast_nonneg _
  have hNpos : 0 ≤ N := by
    have h1 : (0 : ℤ) ≤ (u64Max : ℤ) * (x.den : ℤ) := by positivity
    omega
  have hdiv : (u64Max : ℤ) ≤ N / (x.den : ℤ) := by
    rw [Int.le_ediv_iff_mul_le (by exact_mod_cast hden)]
    omega
  have htd : N.tdiv (x.den : ℤ) = N / (x.den : ℤ) :=
    Int.tdiv_eq_ediv hNpos (Int.natCast_nonneg _)
  simp only [truncAsU64, htd]
  rw [if_neg (by omega)]
  congr 1
  omega

/-- Witness for C10 at the concrete term `"1e12d"`. -/
theorem parse_magnitude_saturates_witness :
    parsePauseArgChars ("1e12d".toList) = some u64Max :=
  parse_magnitude_saturates.2.1 ("1e12d".toList) ⟨10 ^ 12, 1⟩ .Days (by decide)
    (by norm_num [FloatVal.val, multiplierOf, MULTIPLIER_DAYS, u64Max])

/-! ## C5: rounding of the displayed second count -/

/-- C5 counterexample: at `u64::MAX` seconds plus `0.6 s` — a representable
duration — the code's `saturating_add` clamps the carry, so the rendered
decomposition is not the plain carry-then-divide decomposition the claim
states for every duration. -/
theorem remaining_rounding_counterexample :
    remainingTimeOf ((2 ^ 64 - 1) * 10 ^ 9 + 6 * 10 ^ 8) ≠
      specRemainingTime ((2 ^ 64 - 1) * 10 ^ 9 + 6 * 10 ^ 8) ∧
    (2 ^ 64 - 1) * 10 ^ 9 + 6 * 10 ^ 8 ≤ durMaxNanos := by
  constructor
  · decide
  · decide

/-- C5 amended: for every duration whose whole-second count is below
`u64::MAX`, the rendered decomposition is exactly floor-division/remainder
of the whole-second count with a `+1` carry when the sub-second remainder
exceeds `0.5 s` (at `u64::MAX` seconds the carry saturates instead); `900 ms`
renders as `"        1"` and `300 ms` as `"        0"`. -/
theorem remaining_rounding_amended :
    (∀ d : ℕ, d / 10 ^ 9 < u64Max → remainingTimeOf d = specRemainingTime d) ∧
    format_remaining_time (900 * 10 ^ 6) = "        1" ∧
    format_remaining_time (300 * 10 ^ 6) = "        0" := by
  refine ⟨?_, by decide, by decide⟩
  intro d hd
  have hu : u64Max = 18446744073709551615 := by norm_num [u64Max]
  rw [hu] at hd
  simp only [remainingTimeOf, specRemainingTime, hu, RemainingTime.mk.injEq]
  by_cases hc : d % 10 ^ 9 > 500000000
  · simp only [if_pos hc]
    refine ⟨by omega, by omega, by omega⟩
  · simp only [if_neg hc]
    refine ⟨by omega, by omega, by omega⟩

/-- Witness for C5's amended theorem at the concrete duration `900 ms`. -/
theorem remaining_rounding_amended_witness :
    remainingTimeOf (900 * 10 ^ 6) = specRemainingTime (900 * 10 ^ 6) :=
  remaining_rounding_amended.1 (900 * 10 ^ 6) (by decide)

/-! ## C6: fixed-width layout -/

/-- The three layout cases of `RemainingTime::fmt`, stated over an
arbitrary decomposition. -/
lemma display_cases (rt : RemainingTime) :
    (0 < rt.hours →
      rt.display =
        (padLeft ' ' 3 (toString rt.hours) ++ ":") ++
          (padLeft '0' 2 (toString rt.minutes) ++ ":") ++
          padLeft '0' 2 (toString rt.seconds)) ∧
    (rt.hours = 0 → 0 < rt.minutes →
      rt.display =
        "    " ++
          ((if 10 ≤ rt.minutes then toString rt.minutes
            else padLeft ' ' 2 (toString rt.minutes)) ++ ":") ++
          padLeft '0' 2 (toString rt.seconds)) ∧
    (rt.hours = 0 → rt.minutes = 0 →
      rt.display = "       " ++ padLeft ' ' 2 (toString rt.seconds)) := by
  obtain ⟨s, m, h⟩ := rt
  refine ⟨?_, ?_, ?_⟩
  · intro hh
    dsimp only at hh ⊢
    simp only [RemainingTime.display]
    rw [if_pos (by omega : 1 ≤ h), if_pos (by omega : h > 0),
      if_pos (Or.inl (by omega : h > 0))]
  · intro hh hm
    dsimp only at hh hm ⊢
    subst hh
    simp only [RemainingTime.display]
    rw [if_neg (by omega : ¬1 ≤ 0), if_neg (by omega : ¬0 > 0),
      if_pos (Or.inr (by omega : m > 0))]
    by_cases h10 : 10 ≤ m
    · rw [if_pos h10, if_pos h10]
    · rw [if_neg h10, if_pos (by omega : 1 ≤ m), if_neg h10]
  · intro hh hm
    dsimp only at hh hm ⊢
    subst hh
    subst hm
    simp only [RemainingTime.display]
    rw [if_neg (by omega : ¬1 ≤ 0), if_neg (by omega : ¬(0 : ℕ) > 0),
      if_neg (by omega : ¬10 ≤ 0), if_neg (by omega : ¬1 ≤ 0),
      if_neg (by simp : ¬((0 : ℕ) > 0 ∨ (0 : ℕ) > 0))]
    rfl

/-- C6: `format_remaining_time` renders `"{hours:>3}:{minutes:02}:{seconds:02}"`
when hours are positive; without the hour field (minutes space-justified,
no leading zero, seconds zero-padded) when only minutes are positive; and
the seconds alone right-justified when hours and minutes are zero — with the
concrete renderings of 1 s, 61 s, 7200 s and 604800 s. -/
theorem format_layout :
    (∀ d : ℕ,
      (0 < (remainingTimeOf d).hours →
        format_remaining_time d =
          (padLeft ' ' 3 (toString (remainingTimeOf d).hours) ++ ":") ++
            (padLeft '0' 2 (toString (remainingTimeOf d).minutes) ++ ":") ++
            padLeft '0' 2 (toString (remainingTimeOf d).seconds)) ∧
      ((remainingTimeOf d).hours = 0 → 0 < (remainingTimeOf d).minutes →
        format_remaining_time d =
          "    " ++
            ((if 10 ≤ (remainingTimeOf d).minutes
              then toString (remainingTimeOf d).minutes
              else padLeft ' ' 2 (toString (remainingTimeOf d).minutes)) ++ ":") ++
            padLeft '0' 2 (toString (remainingTimeOf d).seconds)) ∧
      ((remainingTimeOf d).hours = 0 → (remainingTimeOf d).minutes = 0 →
        format_remaining_time d =
          "       " ++ padLeft ' ' 2 (toString (remainingTimeOf d).seconds))) ∧
    format_remaining_time (10 ^ 9) = "        1" ∧
    format_remaining_time (61 * 10 ^ 9) = "     1:01" ∧
    format_remaining_time (7200 * 10 ^ 9) = "  2:00:00" ∧
    format_remaining_time (604800 * 10 ^ 9) = "168:00:00" :=
  ⟨fun d => display_cases (remainingTimeOf d), by decide, by decide, by decide, by decide⟩

/-- Witness for C6 at the concrete duration 7200 s. -/
theorem format_layout_witness :
    format_remaining_time (7200 * 10 ^ 9) =
      (padLeft ' ' 3 (toString (remainingTimeOf (7200 * 10 ^ 9)).hours) ++ ":") ++
        (padLeft '0' 2 (toString (remainingTimeOf (7200 * 10 ^ 9)).minutes) ++ ":") ++
        padLeft '0' 2 (toString (remainingTimeOf (7200 * 10 ^ 9)).seconds) :=
  (format_layout.1 (7200 * 10 ^ 9)).1 (by decide)

/-! ## C7: monotonicity of the rendered decomposition -/

/-- C7: for representable durations, a larger duration never renders a
lexicographically smaller (hours, minutes, seconds) decomposition. -/
theorem remaining_monotone :
    ∀ d1 d2 : ℕ, d1 ≤ durMaxNanos → d2 ≤ durMaxNanos → d1 ≤ d2 →
      RemainingTime.lexLe (remainingTimeOf d1) (remainingTimeOf d2) := by
  intro d1 d2 h1 h2 hle
  simp only [remainingTimeOf, RemainingTime.lexLe] at *
  norm_num [u64Max, durMaxNanos] at h1 h2 ⊢
  split_ifs with hc1 hc2 hc2 <;> omega

/-- Witness for C7 at the concrete pair 300 ms and 900 ms. -/
theorem remaining_monotone_witness :
    RemainingTime.lexLe (remainingTimeOf (300 * 10 ^ 6))
      (remainingTimeOf (900 * 10 ^ 6)) :=
  remaining_monotone (300 * 10 ^ 6) (900 * 10 ^ 6) (by decide) (by decide)
    (by decide)

/-! ## C1: summing the parsed terms -/

/-- One unparsable term poisons the whole try-fold. -/
lemma fold_none_of_mem (args : List String) (a : String) (ha : a ∈ args)
    (hp : parse_pause_arg a = none) :
    ∀ acc : ℕ,
      List.foldlM (fun acc arg =>
        (parse_pause_arg arg).bind (fun d => checkedAdd acc d)) acc args = none := by
  induction args with
  | nil => cases ha
  | cons b l ih =>
    intro acc
    rw [List.foldlM_cons]
    rcases List.mem_cons.mp ha with hab | hal
    · subst hab
      rw [hp]
      rfl
    · cases hpb : parse_pause_arg b with
      | none => rfl
      | some d =>
        simp only [Option.some_bind]
        cases hcb : checkedAdd acc d with
        | none => rfl
        | some acc2 =>
          simp only [Option.bind_eq_bind, Option.some_bind]
          exact ih hal acc2

/-- When every term parses, the try-fold yields the plain sum when every
second count stays within `u64`, and fails otherwise. -/
lemma fold_of_parseAll (args : List String) :
    ∀ (acc : ℕ) (ds : List ℕ), acc ≤ durMaxNanos →
      parseAll args = some ds →
      List.foldlM (fun acc arg =>
        (parse_pause_arg arg).bind (fun d => checkedAdd acc d)) acc args =
      if acc + ds.sum ≤ durMaxNanos then some (acc + ds.sum) else none := by
  induction args with
  | nil =>
    intro acc ds hacc hmap
    simp only [parseAll, Option.some.injEq] at hmap
    subst hmap
    simp only [List.foldlM_nil, List.sum_nil, Nat.add_zero, pure]
    rw [if_pos hacc]
  | cons b l ih =>
    intro acc ds hacc hmap
    simp only [parseAll] at hmap
    cases hpb : parse_pause_arg b with
    | none => rw [hpb, Option.none_bind] at hmap; exact Option.noConfusion hmap
    | some d =>
      rw [hpb, Option.some_bind] at hmap
      cases hml : parseAll l with
      | none => rw [hml] at hmap; exact Option.noConfusion hmap
      | some tl =>
        rw [hml] at hmap
        simp only [Option.map_some', Option.some.injEq] at hmap
        subst hmap
        rw [List.foldlM_cons, hpb]
        simp only [Option.some_bind]
        by_cases hd : acc + d ≤ durMaxNanos
        · have hca : checkedAdd acc d = some (acc + d) := by
            unfold checkedAdd
            rw [if_pos hd]
          rw [hca]
          simp only [Option.bind_eq_bind, Option.some_bind]
          rw [ih (acc + d) tl hd hml]
          simp only [List.sum_cons]
          have he : acc + d + tl.sum = acc + (d + tl.sum) := by omega
          rw [he]
        · have hca : checkedAdd acc d = none := by
            unfold checkedAdd
            rw [if_neg hd]
          rw [hca]
          rw [if_neg (by simp only [List.sum_cons]; omega)]
          rfl

/-- C1: `sum_pause_args` parses each term independently in input order and
adds the parsed durations with overflow checking; the call is invalid when
any term is invalid, when the checked addition overflows, or when the summed
total is zero (the empty list included); otherwise it returns the checked
sum — with the three concrete cases of the claim. -/
theorem sum_pause_args_spec :
    (∀ (args : List String) (a : String), a ∈ args → parse_pause_arg a = none →
      sum_pause_args args = none) ∧
    (∀ (args : List String) (ds : List ℕ), parseAll args = some ds →
      sum_pause_args args =
        if ds.sum ≠ 0 ∧ ds.sum ≤ durMaxNanos then some ds.sum else none) ∧
    sum_pause_args [] = none ∧
    sum_pause_args ["1s", "5s", "1m"] = some (66 * 10 ^ 9) ∧
    sum_pause_args ["1s", "5y", "1m"] = none := by
  refine ⟨?_, ?_, by decide, by decide, by decide⟩
  · intro args a ha hp
    unfold sum_pause_args
    rw [fold_none_of_mem args a ha hp 0]
    rfl
  · intro args ds hmap
    unfold sum_pause_args
    rw [fold_of_parseAll args 0 ds (by omega) hmap]
    simp only [Nat.zero_add]
    by_cases hz : ds.sum = 0
    · rw [hz]
      rw [if_pos (by omega)]
      rw [if_neg (by omega)]
      rfl
    · by_cases hb : ds.sum ≤ durMaxNanos
      · rw [if_pos hb, if_pos ⟨hz, hb⟩]
        simp only [Option.bind_eq_bind, Option.some_bind]
        rw [if_neg hz]
      · rw [if_neg hb, if_neg (by tauto)]
        rfl

/-- Witness for C1: one unparsable term (`"5y"`) poisons the sum. -/
theorem sum_pause_args_spec_witness :
    sum_pause_args ["1s", "5y", "1m"] = none :=
  sum_pause_args_spec.1 ["1s", "5y", "1m"] "5y" (by decide) (by decide)

/-! ## C2: splitting a term into number and unit -/

/-- A one-letter unit string is accepted exactly for the four unit
letters. -/
lemma unitFromStr_ne_none (c : Char) :
    snoozeUnitFromStr [c] ≠ none ↔ c ∈ (['s', 'm', 'h', 'd'] : List Char) := by
  simp only [snoozeUnitFromStr]
  split_ifs with h1 h2 h3 h4 <;> simp_all

/-- C2 counterexample: the claim says a term whose numeric part is not a
decimal floating-point number is invalid; but `f64::from_str` also accepts
the special forms `inf`/`infinity`/`nan`, so the program parses `"infd"`
(infinity saturates the cast to `u64::MAX` nanoseconds) and `"nans"`
(NaN casts to `0`) successfully even though `"inf"` and `"nan"` are not
decimal numbers. -/
theorem parse_special_forms_counterexample :
    parseDecimalNum ("inf".toList) = none ∧
    parseDecimalNum ("nan".toList) = none ∧
    parse_pause_arg "infd" = some u64Max ∧
    parse_pause_arg "nans" = some 0 := by
  refine ⟨by decide, by decide, by decide, by decide⟩

/-- C2 amended: in a trimmed non-blank term whose last character is
alphabetic, the parse succeeds exactly when that character is one of the
unit letters `s`, `m`, `h`, `d` (case-sensitive, one letter) and the rest
parses under `f64::from_str` — a decimal number or a case-insensitive
`inf`/`infinity`/`nan`; a non-alphabetic last character defaults the unit
to seconds; the multipliers are 1, 60, 3600, 86400; an in-range nonnegative
finite term yields `number * multiplier` seconds converted to whole
nanoseconds by truncation; an infinite value saturates the cast to
`u64::MAX` nanoseconds and a negative-infinite or NaN value casts to `0` —
with the concrete cases of the claim (`"1y"`, `"1ms"`, `"s"`, `"1m2"`,
`"1S"` invalid; `"0.125m"` is 7500 ms; `"4d"` is 345600 s). -/
theorem parse_term_unit_amended :
    (∀ (cs : List Char) (c : Char), rustTrim cs = cs → cs.getLast? = some c →
      isRustAlphabetic c →
      (parsePauseArgChars cs ≠ none ↔
        (c ∈ (['s', 'm', 'h', 'd'] : List Char) ∧ parseF64 cs.dropLast ≠ none))) ∧
    (∀ (cs : List Char) (c : Char), cs.getLast? = some c →
      ¬isRustAlphabetic c →
      split_unit cs = (parseF64 cs).map (fun v => (v, SnoozeUnit.Seconds))) ∧
    (multiplierOf .Seconds = 1 ∧ multiplierOf .Minutes = 60 ∧
      multiplierOf .Hours = 3600 ∧ multiplierOf .Days = 86400) ∧
    (∀ (cs : List Char) (x : FloatVal) (u : SnoozeUnit),
      split_unit (rustTrim cs) = some (.finite x, u) →
      0 ≤ x.val → x.val * (multiplierOf u : ℚ) * 10 ^ 9 ≤ (u64Max : ℚ) →
      parsePauseArgChars cs =
        some (Int.toNat ⌊x.val * (multiplierOf u : ℚ) * 10 ^ 9⌋)) ∧
    (∀ (cs : List Char) (u : SnoozeUnit),
      split_unit (rustTrim cs) = some (.posInf, u) →
      parsePauseArgChars cs = some u64Max) ∧
    (∀ (cs : List Char) (u : SnoozeUnit),
      split_unit (rustTrim cs) = some (.negInf, u) →
      parsePauseArgChars cs = some 0) ∧
    (∀ (cs : List Char) (u : SnoozeUnit),
      split_unit (rustTrim cs) = some (.nan, u) →
      parsePauseArgChars cs = some 0) ∧
    (parseF64 ("inf".toList) = some .posInf ∧
      parseF64 ("Infinity".toList) = some .posInf ∧
      parseF64 ("-INF".toList) = some .negInf ∧
      parseF64 ("NaN".toList) = some .nan) ∧
    (parse_pause_arg "1y" = none ∧ parse_pause_arg "1ms" = none ∧
      parse_pause_arg "s" = none ∧ parse_pause_arg "1m2" = none ∧
      parse_pause_arg "1S" = none) ∧
    parse_pause_arg "0.125m" = some 7500000000 ∧
    parse_pause_arg "4d" = some 345600000000000 := by
  refine ⟨?_, ?_, by decide, ?_,
    fun cs u h => parsePauseArg_of_split cs .posInf u h,
    fun cs u h => parsePauseArg_of_split cs .negInf u h,
    fun cs u h => parsePauseArg_of_split cs .nan u h,
    ⟨by decide, by decide, by decide, by decide⟩,
    ⟨by decide, by decide, by decide, by decide, by decide⟩, by decide, by decide⟩
  · intro cs c htrim hlast halpha
    have hne : cs ≠ [] := by
      intro h
      rw [h] at hlast
      exact Option.noConfusion hlast
    have hsu : split_unit cs = (parseF64 cs.dropLast).bind
        (fun num => (snoozeUnitFromStr [c]).map (fun u => (num, u))) := by
      unfold split_unit
      rw [hlast, Option.some_bind, if_pos halpha]
    have hparse : parsePauseArgChars cs = (split_unit cs).map
        (fun p => castF64Nanos p.1 p.2) := by
      simp only [parsePauseArgChars, htrim, if_neg hne]
    rw [hparse, hsu, ← unitFromStr_ne_none]
    cases parseF64 cs.dropLast <;> cases snoozeUnitFromStr [c] <;> simp
  · intro cs c hlast halpha
    unfold split_unit
    rw [hlast, Option.some_bind, if_neg halpha]
    show (parseF64 cs).bind
        (fun num => Option.map (fun unit => (num, unit)) (snoozeUnitFromStr ['s'])) =
      Option.map (fun v => (v, SnoozeUnit.Seconds)) (parseF64 cs)
    cases parseF64 cs with
    | none => rfl
    | some x => rfl
  · intro cs x u hsplit hpos hbound
    rw [parsePauseArg_of_split cs (.finite x) u hsplit, castF64Nanos_finite]
    rcases Nat.eq_zero_or_pos x.den with hd0 | hd
    · have hv0 : x.val = 0 := by
        unfold FloatVal.val
        rw [hd0]
        simp
      rw [hv0]
      simp only [truncAsU64, hd0, Nat.cast_zero, Int.tdiv_zero]
      norm_num
    · have hdz : (0 : ℚ) < (x.den : ℚ) := by exact_mod_cast hd
      have hnum : 0 ≤ x.num := by
        by_contra hnn
        push_neg at hnn
        have : x.val < 0 :=
          div_neg_of_neg_of_pos (by exact_mod_cast hnn) hdz
        linarith
      set N : ℤ := x.num * multiplierOf u * 1000000000 with hN
      have hNpos : 0 ≤ N := by
        rw [hN]
        positivity
      have heq : x.val * (multiplierOf u : ℚ) * 10 ^ 9 = ((N : ℤ) : ℚ) / (x.den : ℚ) := by
        rw [hN]
        unfold FloatVal.val
        push_cast
        ring
      rw [heq, Rat.floor_intCast_div_natCast]
      have htd : N.tdiv (x.den : ℤ) = N / (x.den : ℤ) :=
        Int.tdiv_eq_ediv hNpos (Int.natCast_nonneg _)
      have hub : N / (x.den : ℤ) ≤ (u64Max : ℤ) := by
        apply Int.ediv_le_of_le_mul (by exact_mod_cast hd)
        have h2 : ((N : ℤ) : ℚ) ≤ (u64Max : ℚ) * (x.den : ℚ) := by
          rw [heq, div_le_iff₀ hdz] at hbound
          exact hbound
        exact_mod_cast h2
      have hlb : 0 ≤ N / (x.den : ℤ) := Int.ediv_nonneg hNpos (Int.natCast_nonneg _)
      simp only [truncAsU64, htd]
      rw [if_neg (by omega)]
      have humax : (0 : ℤ) ≤ ((u64Max : ℕ) : ℤ) := Int.natCast_nonneg _
      congr 1
      omega

/-! ## C8: absolute end time -/

/-- C8 counterexample: for a representable duration of `2^63` seconds the
second count does not fit in an `i64`, so `calc_wall_clock_end_time`
returns `None` instead of computing a saturated end instant as the claim
states for every duration. -/
theorem wall_clock_end_counterexample :
    calc_wall_clock_end_time 0 (2 ^ 63 * 10 ^ 9) = none ∧
    2 ^ 63 * 10 ^ 9 ≤ durMaxNanos := by
  constructor
  · decide
  · decide

/-- C8 amended: when the duration's whole-second count fits in an `i64`,
the end instant is `start + duration` clamped to the representable datetime
range (never a panic or a wrap); larger second counts make the formatter
unavailable (`None`).  The output carries the `YYYY-MM-DD ` prefix exactly
when the end falls on a different calendar date than the start, and renders
only zero-padded 24-hour `HH:MM:SS` otherwise — with a same-date and a
midnight-crossing concrete example. -/
theorem wall_clock_end_amended :
    (∀ (b : ℤ) (dur : ℕ), dur / 10 ^ 9 ≤ i64Max →
      calc_wall_clock_end_time b dur =
        some (max minDateTimeNanos (min maxDateTimeNanos (b + (dur : ℤ))))) ∧
    (∀ (b : ℤ) (dur : ℕ), i64Max < dur / 10 ^ 9 →
      calc_wall_clock_end_time b dur = none) ∧
    (∀ b e : ℤ, civilDate b = civilDate e →
      format_wall_clock_end_time b e = some (timeFmt e)) ∧
    (∀ b e : ℤ, civilDate b ≠ civilDate e →
      format_wall_clock_end_time b e = some (dateFmt e ++ timeFmt e)) ∧
    format_wall_clock_end_time (1565442000 * 10 ^ 9) ((1565442000 + 3600) * 10 ^ 9) =
      some "14:00:00" ∧
    format_wall_clock_end_time (1745539140 * 10 ^ 9) ((1745539140 + 3600) * 10 ^ 9) =
      some "2025-04-25 00:59:00" := by
  refine ⟨?_, ?_, ?_, ?_, by decide, by decide⟩
  · intro b dur h
    unfold calc_wall_clock_end_time
    rw [if_pos h]
  · intro b dur h
    unfold calc_wall_clock_end_time
    rw [if_neg (by omega)]
  · intro b e h
    unfold format_wall_clock_end_time
    rw [if_pos h]
    rfl
  · intro b e h
    unfold format_wall_clock_end_time
    rw [if_neg h]

/-- Witness for C8's amended theorem at the midnight-crossing repo test
vector. -/
theorem wall_clock_end_amended_witness :
    format_wall_clock_end_time (1745539140 * 10 ^ 9) ((1745539140 + 3600) * 10 ^ 9) =
      some (dateFmt ((1745539140 + 3600) * 10 ^ 9) ++
        timeFmt ((1745539140 + 3600) * 10 ^ 9)) :=
  wall_clock_end_amended.2.2.2.1 (1745539140 * 10 ^ 9) ((1745539140 + 3600) * 10 ^ 9)
    (by decide)

/-- Witness for C2's amended theorem at the concrete term `"0.125m"`. -/
theorem parse_term_unit_amended_witness :
    parsePauseArgChars ("0.125m".toList) =
      some (Int.toNat ⌊(FloatVal.val ⟨125, 1000⟩) * (multiplierOf .Minutes : ℚ) * 10 ^ 9⌋) :=
  parse_term_unit_amended.2.2.2.1 ("0.125m".toList) ⟨125, 1000⟩ .Minutes (by decide)
    (by norm_num [FloatVal.val])
    (by norm_num [FloatVal.val, multiplierOf, MULTIPLIER_MINUTES, u64Max])

end Snooze

namespace Snooze

example : parse_pause_arg "1s" = some 1000000000 := by decide
example : parse_pause_arg "" = some 0 := by decide
example : parse_pause_arg " 1\t\n" = some 1000000000 := by decide
example : parse_pause_arg "0.125m" = some 7500000000 := by decide
example : parse_pause_arg "4d" = some 345600000000000 := by decide
example : parse_pause_arg "1y" = none := by decide
example : parse_pause_arg "1ms" = none := by decide
example : parse_pause_arg "s" = none := by decide
example : parse_pause_arg "1m2" = none := by decide
example : parse_pause_arg "0 5" = none := by decide
example : parse_pause_arg "1m2d" = none := by decide
example : parse_pause_arg "-5" = some 0 := by decide
example : parse_pause_arg "-5s" = some 0 := by decide
example : parse_pause_arg "0.5" = some 500000000 := by decide
example : sum_pause_args [] = none := by decide
example : sum_pause_args ["1s", "5s", "1m"] = some 66000000000 := by decide
example : sum_pause_args ["1s", "5y", "1m"] = none := by decide
example : parse_pause_arg "1e12d" = some (2 ^ 64 - 1) := by decide
example : parse_pause_arg "infd" = some (2 ^ 64 - 1) := by decide
example : parse_pause_arg "INFINITYd" = some (2 ^ 64 - 1) := by decide
example : parse_pause_arg "nans" = some 0 := by decide
example : parse_pause_arg "-infs" = some 0 := by decide
example : parse_pause_arg "inf" = none := by decide
example : parse_pause_arg "nan" = none := by decide
example : parse_pause_arg "infinit" = none := by decide

example : format_remaining_time (1 * 10 ^ 9) = "        1" := by decide
example : format_remaining_time (11 * 10 ^ 9) = "       11" := by decide
example : format_remaining_time (61 * 10 ^ 9) = "     1:01" := by decide
example : format_remaining_time (81 * 10 ^ 9) = "     1:21" := by decide
example : format_remaining_time (661 * 10 ^ 9) = "    11:01" := by decide
example : format_remaining_time (701 * 10 ^ 9) = "    11:41" := by decide
example : format_remaining_time (7200 * 10 ^ 9) = "  2:00:00" := by decide
example : format_remaining_time (7100 * 10 ^ 9) = "  1:58:20" := by decide
example : format_remaining_time (604800 * 10 ^ 9) = "168:00:00" := by decide
example : format_remaining_time (900 * 10 ^ 6) = "        1" := by decide
example : format_remaining_time (300 * 10 ^ 6) = "        0" := by decide

example : civilFromDays 0 = (1970, 1, 1) := by decide
example : civilDate ((1745539140 + 3600) * 10 ^ 9) = (2025, 4, 25) := by decide
example : daysFromCivil 2025 4 25 = ((1745539140 + 3600) * 10 ^ 9 : ℤ).fdiv nsPerDay := by decide
example : civilDate (1565442000 * 10 ^ 9) = (2019, 8, 10) := by decide
example : format_wall_clock_end_time (1565442000 * 10 ^ 9)
    ((1565442000 + 3600) * 10 ^ 9) = some "14:00:00" := by decide
example : format_wall_clock_end_time (1709208000 * 10 ^ 9)
    ((1709208000 + 3600) * 10 ^ 9) = some "13:00:00" := by decide
example : format_wall_clock_end_time (1740744000 * 10 ^ 9)
    ((1740744000 + 3600) * 10 ^ 9) = some "13:00:00" := by decide
example : format_wall_clock_end_time (1745539140 * 10 ^ 9)
    ((1745539140 + 3600) * 10 ^ 9) = some "2025-04-25 00:59:00" := by decide
example : format_wall_clock_end_time (1746057540 * 10 ^ 9)
    ((1746057540 + 3600) * 10 ^ 9) = some "2025-05-01 00:59:00" := by decide
example : format_wall_clock_end_time (1735689540 * 10 ^ 9)
    ((1735689540 + 3600) * 10 ^ 9) = some "2025-01-01 00:59:00" := by decide
example : format_wall_clock_end_time (1754690400 * 10 ^ 9)
    ((1754690400 + 36 * 60 * 60) * 10 ^ 9) = some "2025-08-10 10:00:00" := by decide
example : calc_wall_clock_end_time (1565442000 * 10 ^ 9) (3600 * 10 ^ 9)
    = some ((1565442000 + 3600) * 10 ^ 9) := by decide
example : calc_wall_clock_end_time 0 (2 ^ 63 * 10 ^ 9) = none := by decide

example : handleSignal 10 = [(.uiChannel, .PrintTime)] := by decide
example : handleSignal 2 = [(.uiChannel, .Terminate 2), (.loopChannel, .Terminate 2)] := by decide
example : handleSignal 9 = [] := by decide

end Snooze
